import Mathlib

/-!
# QuickTime container parser and RISC OS entry point

A shallow embedding of `common/quicktime.h` (class `Common::QuickTimeParser`)
and of `backends/platform/sdl/riscos/riscos-main.cpp` (`main`).

The header declares the data model (`Atom`, `Track`, `TimeToSampleEntry`, ...),
the parser fields and three inline members (`setChunkBeginOffset`,
`getTimeScale`, `isOpen`); these are transcribed from the header. The member
functions the header only declares (`parseStream`, `close`, `readDefault`,
`readSTCO`, ...) have their bodies in a translation unit that is not part of
the sources at hand; each of them is modelled from the written specification
and is marked as such in its doc comment.

Machine integers are natural numbers or integers; a value stored in a
`uint32` field is reduced modulo `2 ^ 32` at the point where the store can
overflow.
-/

namespace Common

/-! ## Data model (`quicktime.h`) -/

/-- Modelled from the spec: `DisposeAfterUse::Flag` of `common/types.h`, which
tells the parser whether it owns the stream handed to `parseStream`. -/
inductive DisposeAfterUse.Flag where
  | NO
  | YES
  deriving DecidableEq, Repr

/-- Modelled from the spec: `Common::SeekableReadStream` of `common/stream.h`,
reduced to the bytes it holds; every read below names its absolute position.
A byte is the list entry modulo 256. -/
structure SeekableReadStream where
  data : List Nat
  deriving DecidableEq, Repr

/-- Modelled from the spec: `Common::Rational` of `common/rational.h`, a
fraction of two machine integers. -/
structure Rational where
  num : Int
  denom : Int
  deriving DecidableEq, Repr

/-- Modelled from the spec: `Common::MacResManager`, the resource-fork
collaborator, of which the parser only keeps a pointer. -/
structure MacResManager where
  id : Nat
  deriving DecidableEq, Repr

/-- From the source: `struct TimeToSampleEntry` (quicktime.h:99). -/
structure TimeToSampleEntry where
  count : Int
  duration : Int
  deriving DecidableEq, Repr

/-- From the source: `struct SampleToChunkEntry` (quicktime.h:104). -/
structure SampleToChunkEntry where
  first : Nat
  count : Nat
  id : Nat
  deriving DecidableEq, Repr

/-- From the source: `struct EditListEntry` (quicktime.h:110). -/
structure EditListEntry where
  trackDuration : Nat
  timeOffset : Nat
  mediaTime : Int
  mediaRate : Rational
  deriving DecidableEq, Repr

/-- From the source: `class SampleDesc` (quicktime.h:119); the back pointer `_parentTrack` is
the position of the owning track and is not stored. -/
structure SampleDesc where
  _extraData : Option SeekableReadStream
  _objectTypeMP4 : Nat
  _codecTag : Nat
  deriving DecidableEq, Repr

/-- From the source: `enum CodecType` (quicktime.h:134). -/
inductive CodecType where
  | CODEC_TYPE_MOV_OTHER
  | CODEC_TYPE_VIDEO
  | CODEC_TYPE_AUDIO
  | CODEC_TYPE_MIDI
  deriving DecidableEq, Repr

/-- From the source: `struct Track` (quicktime.h:141). The owned arrays are lists; the
`uint32 *` tables hold values below `2 ^ 32`. -/
structure Track where
  chunkCount : Nat
  chunkOffsets : List Nat
  timeToSampleCount : Int
  timeToSample : List TimeToSampleEntry
  sampleToChunkCount : Nat
  sampleToChunk : List SampleToChunkEntry
  sampleSize : Nat
  sampleCount : Nat
  sampleSizes : List Nat
  keyframeCount : Nat
  keyframes : List Nat
  timeScale : Int
  width : Nat
  height : Nat
  codecType : CodecType
  sampleDescs : List SampleDesc
  editList : List EditListEntry
  frameCount : Nat
  duration : Nat
  mediaDuration : Nat
  scaleFactorX : Rational
  scaleFactorY : Rational
  deriving DecidableEq, Repr

/-- From the source: `struct Atom` (quicktime.h:184). -/
structure Atom where
  type : Nat
  offset : Nat
  size : Nat
  deriving DecidableEq, Repr

/-- The member functions a `ParseTable` entry can point to, among the handlers
declared at quicktime.h:203-221: those whose decode rule the specification
states. -/
inductive Handler where
  | readDefault
  | readLeaf
  | readMOOV
  | readTRAK
  | readSTCO
  | readSTSC
  | readSTSS
  | readSTSZ
  | readSTTS
  deriving DecidableEq, Repr

/-- From the source: `struct ParseTable` (quicktime.h:190). -/
structure ParseTable where
  func : Handler
  type : Nat
  deriving DecidableEq, Repr

/-- The fields of `class QuickTimeParser` (quicktime.h:97, 175-179, 195-199).
`_parseTable` is assigned once, by `initParseTable`, and is the constant
`initParseTable` below. -/
structure QuickTimeParser where
  _fd : Option SeekableReadStream
  _timeScale : Nat
  _duration : Nat
  _scaleFactorX : Rational
  _scaleFactorY : Rational
  _tracks : List Track
  _disposeFileHandle : DisposeAfterUse.Flag
  _beginOffset : Nat
  _resFork : Option MacResManager
  _foundMOOV : Bool
  deriving DecidableEq, Repr

/-! ## Byte-level reading -/

/-- Modelled from the spec: the error taxonomy of the module (specification,
section 7); the translation unit that raises the errors is not part of the
sources. An unsupported atom is skipped and is no error. -/
inductive ParseError where
  | malformedAtom
  | missingRequiredAtom
  | truncatedStream
  | decompressionFailure
  | codecFactoryFailure
  deriving DecidableEq, Repr

/-- The big-endian number spelled by a run of bytes. -/
def readBE (bytes : List Nat) : Nat :=
  bytes.foldl (fun acc b => acc * 256 + b % 256) 0

/-- The bytes of `data` in the range `[offset, offset + size)`. -/
def slice (data : List Nat) (offset size : Nat) : List Nat :=
  (data.drop offset).take size

/-- Modelled from the spec: `ReadStream::readUint32BE` of `common/stream.h`,
on the bytes a handler may still consume: the number read and the bytes left,
or nothing when fewer than four bytes are left. -/
def readUint32BE (bytes : List Nat) : Option (Nat × List Nat) :=
  if 4 ≤ bytes.length then some (readBE (bytes.take 4), bytes.drop 4) else none

/-- Modelled from the spec: the reads of a table handler, `n` big-endian
numbers of `w` bytes each out of the bytes it may still consume; nothing when
the bytes run out before the `n`-th number is complete. -/
def readWords (w : Nat) : Nat → List Nat → Option (List Nat)
  | 0, _ => some []
  | n + 1, bytes =>
    if w ≤ bytes.length then
      (readWords w n (bytes.drop w)).map (fun vs => readBE (bytes.take w) :: vs)
    else none

/-- The big-endian spelling of `v` on `w` bytes (the inverse of `readBE`, used
to say what an atom declares). -/
def writeBE : Nat → Nat → List Nat
  | 0, _ => []
  | w + 1, v => writeBE w (v / 256) ++ [v % 256]

/-- The value a `uint32` read from the stream has once it is stored in an
`int` field. -/
def toInt32 (v : Nat) : Int :=
  if v % 2 ^ 32 < 2 ^ 31 then ((v % 2 ^ 32 : Nat) : Int) else ((v % 2 ^ 32 : Nat) : Int) - 2 ^ 32

/-! ## Atom type tags and the parse table -/

/-- Modelled from the spec: the `MKTAG` macro of `common/endian.h`, the 32-bit
number spelled by four characters. -/
def MKTAG (a0 a1 a2 a3 : Nat) : Nat :=
  ((a0 * 256 + a1) * 256 + a2) * 256 + a3

/-- Tag `moov`, the movie header atom. -/
def tagMOOV : Nat := MKTAG 0x6d 0x6f 0x6f 0x76
/-- Tag `trak`, a track atom. -/
def tagTRAK : Nat := MKTAG 0x74 0x72 0x61 0x6b
/-- Tag `mdia`, the media container of a track. -/
def tagMDIA : Nat := MKTAG 0x6d 0x64 0x69 0x61
/-- Tag `minf`, the media information container. -/
def tagMINF : Nat := MKTAG 0x6d 0x69 0x6e 0x66
/-- Tag `stbl`, the sample table container. -/
def tagSTBL : Nat := MKTAG 0x73 0x74 0x62 0x6c
/-- Tag `stco`, the chunk-offset atom with 32-bit offsets. -/
def tagSTCO : Nat := MKTAG 0x73 0x74 0x63 0x6f
/-- Tag `co64`, the chunk-offset atom with 64-bit offsets. -/
def tagCO64 : Nat := MKTAG 0x63 0x6f 0x36 0x34
/-- Tag `stsc`, the sample-to-chunk atom. -/
def tagSTSC : Nat := MKTAG 0x73 0x74 0x73 0x63
/-- Tag `stss`, the sync-sample atom. -/
def tagSTSS : Nat := MKTAG 0x73 0x74 0x73 0x73
/-- Tag `stsz`, the sample-size atom. -/
def tagSTSZ : Nat := MKTAG 0x73 0x74 0x73 0x7a
/-- Tag `stts`, the time-to-sample atom. -/
def tagSTTS : Nat := MKTAG 0x73 0x74 0x74 0x73

/-- Modelled from the spec: the table `QuickTimeParser::initParseTable`
installs (its body is not part of the sources). It lists the atoms whose
decode rule the specification states: the movie header and the track
containers, and the chunk-offset (32- and 64-bit), sample-to-chunk,
sync-sample, sample-size and time-to-sample atoms. The header, handler,
edit-list, sample-description and compressed-header atoms, for which the
specification gives no field layout, are not in the table and are skipped as
unsupported atoms. -/
def initParseTable : List ParseTable :=
  [ ⟨Handler.readMOOV, tagMOOV⟩,
    ⟨Handler.readTRAK, tagTRAK⟩,
    ⟨Handler.readDefault, tagMDIA⟩,
    ⟨Handler.readDefault, tagMINF⟩,
    ⟨Handler.readDefault, tagSTBL⟩,
    ⟨Handler.readSTCO, tagSTCO⟩,
    ⟨Handler.readSTCO, tagCO64⟩,
    ⟨Handler.readSTSC, tagSTSC⟩,
    ⟨Handler.readSTSS, tagSTSS⟩,
    ⟨Handler.readSTSZ, tagSTSZ⟩,
    ⟨Handler.readSTTS, tagSTTS⟩ ]

/-- Modelled from the spec: the table lookup of the atom walker, "a sequence
checked in order, first match wins". -/
def lookup (table : List ParseTable) (type : Nat) : Option Handler :=
  (table.find? (fun e => e.type == type)).map (fun e => e.func)

/-- Modelled from the spec: `Track::Track()`, a track with empty tables. -/
def Track.new : Track :=
  { chunkCount := 0, chunkOffsets := [], timeToSampleCount := 0, timeToSample := [],
    sampleToChunkCount := 0, sampleToChunk := [], sampleSize := 0, sampleCount := 0,
    sampleSizes := [], keyframeCount := 0, keyframes := [], timeScale := 0,
    width := 0, height := 0, codecType := CodecType.CODEC_TYPE_MOV_OTHER,
    sampleDescs := [], editList := [], frameCount := 0, duration := 0,
    mediaDuration := 0, scaleFactorX := ⟨1, 1⟩, scaleFactorY := ⟨1, 1⟩ }

/-- Applies `f` to the last track of the list (`_tracks.back()`), the track
under construction; nothing when there is no track or `f` gives nothing. -/
def modifyBack (f : Track → Option Track) : List Track → Option (List Track)
  | [] => none
  | [t] => (f t).map (fun t1 => [t1])
  | t :: u :: rest => (modifyBack f (u :: rest)).map (fun ts => t :: ts)

/-- Groups a run of numbers two by two into time-to-sample entries. -/
def toTimeToSample : List Nat → List TimeToSampleEntry
  | c :: d :: rest => ⟨toInt32 c, toInt32 d⟩ :: toTimeToSample rest
  | _ => []

/-- The sum of the first number of every pair of a run of numbers. -/
def sumCounts : List Nat → Nat
  | c :: _ :: rest => c + sumCounts rest
  | _ => 0

/-- The sum of the products of every pair of a run of numbers. -/
def sumDurations : List Nat → Nat
  | c :: d :: rest => c * d + sumDurations rest
  | _ => 0

/-- Groups a run of numbers three by three into sample-to-chunk entries. -/
def toSampleToChunk : List Nat → List SampleToChunkEntry
  | f :: c :: i :: rest => ⟨f, c, i⟩ :: toSampleToChunk rest
  | _ => []

namespace QuickTimeParser

/-! ## Inline members (`quicktime.h`) -/

/-- From the source: `void setChunkBeginOffset(uint32 offset) { _beginOffset = offset; }`
(quicktime.h:85). The argument is a `uint32`, a number below `2 ^ 32`. -/
def setChunkBeginOffset (p : QuickTimeParser) (offset : Nat) : QuickTimeParser :=
  { p with _beginOffset := offset }

/-- From the source: `uint32 getTimeScale() const { return _timeScale; }` (quicktime.h:90): the
value returned, and the parser after the call. -/
def getTimeScale (p : QuickTimeParser) : Nat × QuickTimeParser :=
  (p._timeScale, p)

/-- From the source: `bool isOpen() const { return _fd != nullptr; }` (quicktime.h:93): the
value returned, and the parser after the call. -/
def isOpen (p : QuickTimeParser) : Bool × QuickTimeParser :=
  (p._fd.isSome, p)

/-! ## Member functions declared by the header, modelled from the specification -/

/-- Modelled from the spec: `QuickTimeParser::QuickTimeParser()`, a parser with
no stream, no track and a zero chunk-begin offset. -/
def new : QuickTimeParser :=
  { _fd := none, _timeScale := 0, _duration := 0, _scaleFactorX := ⟨1, 1⟩,
    _scaleFactorY := ⟨1, 1⟩, _tracks := [], _disposeFileHandle := DisposeAfterUse.Flag.YES,
    _beginOffset := 0, _resFork := none, _foundMOOV := false }

/-- Modelled from the spec: the stream `QuickTimeParser::close` deletes: "close
releases the stream (if owned)". -/
def closeDeletes (p : QuickTimeParser) : Option SeekableReadStream :=
  if p._disposeFileHandle = DisposeAfterUse.Flag.YES then p._fd else none

/-- Modelled from the spec: `QuickTimeParser::close`: "close releases the
stream (if owned) and destroys all Track/SampleDesc objects"; the parser keeps
no handle afterwards. -/
def close (p : QuickTimeParser) : QuickTimeParser :=
  { p with _tracks := [], _fd := none }

/-- Modelled from the spec: the common part of the table handlers, which
"populate one mutable per-track record": it applies a table decoder to the
track under construction; "either the handler fully populates its table or the
parse is aborted", so a table atom met before any track, or one the decoder
rejects, is a malformed atom. -/
def updateTrack (p : QuickTimeParser) (f : Track → Option Track) :
    Except ParseError QuickTimeParser :=
  match modifyBack f p._tracks with
  | none => Except.error ParseError.malformedAtom
  | some ts => Except.ok { p with _tracks := ts }

/-- Modelled from the spec: `QuickTimeParser::readLeaf`, a leaf that is
recognised and not decoded; the walker skips its bytes. -/
def readLeaf (_atom : Atom) (_payload : List Nat) (p : QuickTimeParser) :
    Except ParseError QuickTimeParser :=
  Except.ok p

/-- Modelled from the spec: `QuickTimeParser::readSTCO`: "reads a count
followed by that many 32- or 64-bit absolute offsets (variant selected by atom
type tag) into the chunk offset table". `payload` holds the bytes of `_fd` the
atom spans. Every offset is rebased by `_beginOffset` and stored in the
`uint32` table `chunkOffsets`, hence modulo `2 ^ 32`. -/
def readSTCO (atom : Atom) (payload : List Nat) (p : QuickTimeParser) :
    Except ParseError QuickTimeParser :=
  updateTrack p (fun track =>
    match readUint32BE payload with
    | none => none
    | some (n, rest) =>
      (readWords (if atom.type = tagCO64 then 8 else 4) n rest).map (fun offs =>
        { track with
          chunkCount := n
          chunkOffsets := offs.map (fun o => (o + p._beginOffset) % 2 ^ 32) }))

/-- Modelled from the spec: `QuickTimeParser::readSTSC`: "reads a count of
runs, each {firstChunk, samplesPerChunk, sampleDescriptionId}"; the runs are
stored verbatim. -/
def readSTSC (_atom : Atom) (payload : List Nat) (p : QuickTimeParser) :
    Except ParseError QuickTimeParser :=
  updateTrack p (fun track =>
    match readUint32BE payload with
    | none => none
    | some (n, rest) =>
      (readWords 4 (3 * n) rest).map (fun ws =>
        { track with sampleToChunkCount := n, sampleToChunk := toSampleToChunk ws }))

/-- Modelled from the spec: `QuickTimeParser::readSTSS`: "reads a count
followed by sample indices that are keyframes". -/
def readSTSS (_atom : Atom) (payload : List Nat) (p : QuickTimeParser) :
    Except ParseError QuickTimeParser :=
  updateTrack p (fun track =>
    match readUint32BE payload with
    | none => none
    | some (n, rest) =>
      (readWords 4 n rest).map (fun ws =>
        { track with keyframeCount := n, keyframes := ws }))

/-- Modelled from the spec: `QuickTimeParser::readSTSZ`: "reads either one
uniform size applied to all samples, or a count followed by per-sample sizes":
the uniform size, the sample count and, when the uniform size is zero, one
size per sample. -/
def readSTSZ (_atom : Atom) (payload : List Nat) (p : QuickTimeParser) :
    Except ParseError QuickTimeParser :=
  updateTrack p (fun track =>
    match readUint32BE payload with
    | none => none
    | some (size, rest) =>
      match readUint32BE rest with
      | none => none
      | some (n, rest1) =>
        if size = 0 then
          (readWords 4 n rest1).map (fun ws =>
            { track with sampleSize := 0, sampleCount := n, sampleSizes := ws })
        else
          some { track with sampleSize := size, sampleCount := n, sampleSizes := [] })

/-- Modelled from the spec: `QuickTimeParser::readSTTS`: "reads a count of
{sampleCount, sampleDuration} runs; accumulated durations derive track
duration in media time". The runs go to the `int` fields of
`TimeToSampleEntry`; `frameCount` ("from stts", quicktime.h:166) is the total
of the run counts and `mediaDuration` the total duration, both `uint32`. -/
def readSTTS (_atom : Atom) (payload : List Nat) (p : QuickTimeParser) :
    Except ParseError QuickTimeParser :=
  updateTrack p (fun track =>
    match readUint32BE payload with
    | none => none
    | some (n, rest) =>
      (readWords 4 (2 * n) rest).map (fun ws =>
        { track with
          timeToSampleCount := toInt32 n
          timeToSample := toTimeToSample ws
          frameCount := sumCounts ws % 2 ^ 32
          mediaDuration := sumDurations ws % 2 ^ 32 }))

/-- Modelled from the spec: the size check of the atom walker on the child
that starts at the beginning of the range `atom`: where its payload starts and
where the child ends, or nothing when the child is malformed. `handler` is
what the parse table gives for the type tag of the child. The declared size
must be "≥ the 8-byte header" and must "not exceed the remaining parent
range"; size 0 means the child extends to the end of the range, size 1 that a
64-bit size field follows the type tag (section 4.1: these "may signal" a
special case). The movie header atom has no special case: "a movie header atom
with a declared size smaller than 8 bytes is rejected (malformed-atom)"
(section 8). -/
def childExtent (data : List Nat) (atom : Atom) (handler : Option Handler) (size : Nat) :
    Option (Nat × Nat) :=
  if handler = some Handler.readMOOV ∧ size < 8 then none
  else if size = 0 then some (atom.offset + 8, atom.offset + atom.size)
  else if size = 1 then
    if atom.size < 16 then none
    else if 16 ≤ readBE (slice data (atom.offset + 8) 8)
        ∧ readBE (slice data (atom.offset + 8) 8) ≤ atom.size then
      some (atom.offset + 16, atom.offset + readBE (slice data (atom.offset + 8) 8))
    else none
  else if 8 ≤ size ∧ size ≤ atom.size then some (atom.offset + 8, atom.offset + size)
  else none

/-- Modelled from the spec: the leaf handlers of the parse table, each given
the atom descriptor and the bytes of its payload; a handler that needs more
bytes than the payload holds fails with a malformed-atom error, one that
needs fewer leaves the remainder to be skipped. -/
def readLeafAtom (h : Handler) (atom : Atom) (payload : List Nat) (p : QuickTimeParser) :
    Except ParseError QuickTimeParser :=
  match h with
  | Handler.readSTCO => readSTCO atom payload p
  | Handler.readSTSC => readSTSC atom payload p
  | Handler.readSTSS => readSTSS atom payload p
  | Handler.readSTSZ => readSTSZ atom payload p
  | Handler.readSTTS => readSTTS atom payload p
  | _ => readLeaf atom payload p

/-- Modelled from the spec: what a container handler does before it recurses
into its payload: `readMOOV` records that the movie header was found,
`readTRAK` starts a new track, `readDefault` does nothing. -/
def enterContainer (h : Handler) (p : QuickTimeParser) : QuickTimeParser :=
  match h with
  | Handler.readMOOV => { p with _foundMOOV := true }
  | Handler.readTRAK => { p with _tracks := p._tracks ++ [Track.new] }
  | _ => p

/-- Modelled from the spec: the handlers that "recurse into the child's
payload range": the default handler, the movie header and the track. -/
def isContainer (h : Handler) : Bool :=
  match h with
  | Handler.readDefault => true
  | Handler.readMOOV => true
  | Handler.readTRAK => true
  | _ => false

/-- Modelled from the spec: `QuickTimeParser::readDefault`, the atom walker
(specification, section 4.1), on the byte range `[atom.offset,
atom.offset + atom.size)` of `data`, the bytes of `_fd`. It reads the size and
type tag of the first child, checks the size, looks the tag up in the table
(an unknown tag is skipped), hands a leaf to its handler or recurses into a
container, and goes on with the rest of the range; an error aborts the walk.
The descriptor handed to a handler spans the payload of the child. The first
argument bounds the recursion; `atom.size` is always enough
(`readDefaultFuel_enough`). -/
def readDefaultFuel (table : List ParseTable) (data : List Nat) :
    Nat → Atom → QuickTimeParser → Except ParseError QuickTimeParser
  | 0, _, p => Except.ok p
  | fuel + 1, atom, p =>
    if atom.size < 8 then Except.ok p
    else
      match childExtent data atom (lookup table (readBE (slice data (atom.offset + 4) 4)))
          (readBE (slice data atom.offset 4)) with
      | none => Except.error ParseError.malformedAtom
      | some (start, stop) =>
        let type := readBE (slice data (atom.offset + 4) 4)
        let a : Atom := { type := type, offset := start, size := stop - start }
        let rest : Atom :=
          { type := atom.type, offset := stop, size := atom.offset + atom.size - stop }
        match lookup table type with
        | none => readDefaultFuel table data fuel rest p
        | some h =>
          match (if isContainer h then readDefaultFuel table data fuel a (enterContainer h p)
                 else readLeafAtom h a (slice data start (stop - start)) p) with
          | Except.error e => Except.error e
          | Except.ok p1 => readDefaultFuel table data fuel rest p1

/-- Modelled from the spec: `QuickTimeParser::readDefault(Atom atom)`. -/
def readDefault (table : List ParseTable) (data : List Nat) (atom : Atom)
    (p : QuickTimeParser) : Except ParseError QuickTimeParser :=
  readDefaultFuel table data atom.size atom p

/-- The atoms of the byte range `atom` of `data`, in file order, each with the
type tag and the size it declares and the position of its header: the
children of the range and, below every container of the table, their own
children. A child with a malformed size is listed and ends its range. -/
def atomsFuel (table : List ParseTable) (data : List Nat) : Nat → Atom → List Atom
  | 0, _ => []
  | fuel + 1, atom =>
    if atom.size < 8 then []
    else
      let size := readBE (slice data atom.offset 4)
      let type := readBE (slice data (atom.offset + 4) 4)
      let here : Atom := { type := type, offset := atom.offset, size := size }
      match childExtent data atom (lookup table type) size with
      | none => [here]
      | some (start, stop) =>
        let rest : Atom :=
          { type := atom.type, offset := stop, size := atom.offset + atom.size - stop }
        let inner :=
          match lookup table type with
          | none => []
          | some h =>
            if isContainer h then
              atomsFuel table data fuel { type := type, offset := start, size := stop - start }
            else []
        here :: (inner ++ atomsFuel table data fuel rest)

/-- The atoms of a whole stream, as the parser's table delimits them. -/
def atoms (stream : SeekableReadStream) : List Atom :=
  atomsFuel initParseTable stream.data stream.data.length
    { type := 0, offset := 0, size := stream.data.length }

/-- Modelled from the spec: `QuickTimeParser::parseStream`: it takes the
stream, walks it from the first byte to the last, and fails when the walk
fails or finds no movie header atom; "the top-level entry points convert any
failure into a boolean false return and guarantee close()-equivalent
cleanup". The result is the value returned and the parser after the call. -/
def parseStream (p : QuickTimeParser) (stream : SeekableReadStream)
    (disposeFileHandle : DisposeAfterUse.Flag) : Bool × QuickTimeParser :=
  let p1 : QuickTimeParser :=
    { p with _fd := some stream, _foundMOOV := false, _disposeFileHandle := disposeFileHandle }
  match readDefault initParseTable stream.data
      { type := 0, offset := 0, size := stream.data.length } p1 with
  | Except.error _ => (false, close p1)
  | Except.ok p2 => if p2._foundMOOV then (true, p2) else (false, close p2)

end QuickTimeParser

/-! ## Sample locator (specification, section 4.4) -/

/-- Modelled from the spec: the number of samples in chunk `chunk` (counted
from 0), from the sample-to-chunk runs "expanded lazily": the run in force is
the last one whose first chunk (counted from 1) is not after the chunk. -/
def samplesPerChunk (runs : List SampleToChunkEntry) (chunk : Nat) : Nat :=
  match (runs.filter (fun r => decide (r.first ≤ chunk + 1))).getLast? with
  | none => 0
  | some r => r.count

/-- Modelled from the spec: the size of sample `i`, "uniform or per-sample". -/
def sizeOfSample (t : Track) (i : Nat) : Nat :=
  if t.sampleSize = 0 then t.sampleSizes.getD i 0 else t.sampleSize

/-- Modelled from the spec: step (a) of the sample locator, "find the chunk
containing sample n": scanning `k` chunks from chunk `chunk`, whose first
sample is `first`, the chunk of sample `n` and the first sample of that
chunk. -/
def findChunk (t : Track) : Nat → Nat → Nat → Nat → Option (Nat × Nat)
  | 0, _, _, _ => none
  | k + 1, chunk, first, n =>
    if n < first + samplesPerChunk t.sampleToChunk chunk then some (chunk, first)
    else findChunk t k (chunk + 1) (first + samplesPerChunk t.sampleToChunk chunk) n

/-- Modelled from the spec: step (b) of the sample locator, the "chunk's base
byte offset from the chunk-offset table" for sample `n`. -/
def sampleChunkBase (t : Track) (n : Nat) : Option Nat :=
  match findChunk t t.chunkCount 0 0 n with
  | none => none
  | some (chunk, _) => t.chunkOffsets[chunk]?

/-- Modelled from the spec: step (c) of the sample locator, the sum of the
sizes of the samples "preceding n within that chunk". -/
def intraChunkOffset (t : Track) (first n : Nat) : Nat :=
  ((List.range (n - first)).map (fun j => sizeOfSample t (first + j))).sum

/-- Modelled from the spec: the resolved byte offset of sample `n` of a track,
the chunk base plus the intra-chunk offset; nothing when the track has no
such sample. The locator is a consumer of the header's tables and lives
outside it. -/
def sampleOffset (t : Track) (n : Nat) : Option Nat :=
  match findChunk t t.chunkCount 0 0 n with
  | none => none
  | some (chunk, first) =>
    match t.chunkOffsets[chunk]? with
    | none => none
    | some base => some (base + intraChunkOffset t first n)

/-- A track whose stored chunk offsets are each moved by `d` in `uint32`
arithmetic. -/
def shiftTrack (d : Nat) (t : Track) : Track :=
  { t with chunkOffsets := t.chunkOffsets.map (fun x => (x + d) % 2 ^ 32) }

/-- A parser whose chunk-begin offset is `d` further and whose stored chunk
offsets are each moved by `d`. -/
def rebase (d : Nat) (p : QuickTimeParser) : QuickTimeParser :=
  { p with _beginOffset := p._beginOffset + d, _tracks := p._tracks.map (shiftTrack d) }

end Common

/-! ## RISC OS entry point (`riscos-main.cpp`) -/

namespace RiscOS

/-- The calls `main` makes, in the order of the source. -/
inductive Call where
  | newOSystem_RISCOS
  | init
  | addPluginProvider
  | scummvm_main (argc : Int) (argv : List String)
  | destroy
  deriving DecidableEq, Repr

/-- The functions `main` calls and that are defined elsewhere
(`OSystem_RISCOS` in `riscos.h`, `PluginManager`, `scummvm_main` in
`base/main.h`), as state transformers on the rest of the program state. -/
structure Collaborators (σ : Type) where
  newOSystem_RISCOS : σ → σ
  init : σ → σ
  addPluginProvider : σ → σ
  scummvm_main : Int → List String → σ → Int × σ
  destroy : σ → σ

/-- The program state around `main`: the state the collaborators act on and
the calls made so far. -/
structure World (σ : Type) where
  state : σ
  calls : List Call

/-- From the source: `int main(int argc, char *argv[])` (riscos-main.cpp:30-50).
`DYNAMIC_MODULES` is the preprocessor flag of line 39. `new` does not return
null, so the `assert` of line 34 passes. -/
def main {σ : Type} (c : Collaborators σ) (DYNAMIC_MODULES : Bool) (argc : Int)
    (argv : List String) (w : World σ) : Int × World σ :=
  -- g_system = new OSystem_RISCOS(); assert(g_system);
  let w1 : World σ := ⟨c.newOSystem_RISCOS w.state, w.calls ++ [Call.newOSystem_RISCOS]⟩
  -- g_system->init();
  let w2 : World σ := ⟨c.init w1.state, w1.calls ++ [Call.init]⟩
  -- #ifdef DYNAMIC_MODULES ... addPluginProvider(new RiscOSPluginProvider());
  let w3 : World σ :=
    if DYNAMIC_MODULES then ⟨c.addPluginProvider w2.state, w2.calls ++ [Call.addPluginProvider]⟩
    else w2
  -- int res = scummvm_main(argc, argv);
  let res := c.scummvm_main argc argv w3.state
  let w4 : World σ := ⟨res.2, w3.calls ++ [Call.scummvm_main argc argv]⟩
  -- g_system->destroy();
  let w5 : World σ := ⟨c.destroy w4.state, w4.calls ++ [Call.destroy]⟩
  -- return res;
  (res.1, w5)

end RiscOS

/-! ## Example streams -/

namespace Common

/-- The bytes of an atom: its size on 32 bits, its type tag and its payload. -/
def encodeAtom (type : Nat) (payload : List Nat) : List Nat :=
  writeBE 4 (payload.length + 8) ++ writeBE 4 type ++ payload

/-- A movie with one track of one chunk at file offset `chunkOffset`; the
chunk holds two samples of 10 and 20 bytes. -/
def movieWithChunkAt (chunkOffset : Nat) : SeekableReadStream :=
  ⟨encodeAtom tagMOOV (encodeAtom tagTRAK (
      encodeAtom tagSTCO (writeBE 4 1 ++ writeBE 4 chunkOffset)
      ++ encodeAtom tagSTSC (writeBE 4 1 ++ writeBE 4 1 ++ writeBE 4 2 ++ writeBE 4 1)
      ++ encodeAtom tagSTSZ (writeBE 4 0 ++ writeBE 4 2 ++ writeBE 4 10 ++ writeBE 4 20)))⟩

/-- A stream whose movie header atom declares size 0. -/
def movieOfSizeZero : SeekableReadStream :=
  ⟨writeBE 4 0 ++ writeBE 4 tagMOOV⟩

/-- A parser with one track under construction. -/
def parserWithOneTrack : QuickTimeParser :=
  { QuickTimeParser.new with _tracks := [Track.new] }

end Common

/-! ## Theorems -/

namespace Common

open QuickTimeParser

/-! ### Byte-level reading -/

theorem writeBE_length (w v : Nat) : (writeBE w v).length = w := by
  induction w generalizing v with
  | zero => rfl
  | succ w ih => simp [writeBE, ih]

theorem readBE_snoc (l : List Nat) (b : Nat) : readBE (l ++ [b]) = readBE l * 256 + b % 256 := by
  simp [readBE, List.foldl_append]

theorem readBE_writeBE (w v : Nat) : readBE (writeBE w v) = v % 256 ^ w := by
  induction w generalizing v with
  | zero => simp [writeBE, readBE, Nat.mod_one]
  | succ w ih =>
    rw [writeBE, readBE_snoc, ih, Nat.mod_mod, pow_succ, Nat.mul_comm (256 ^ w) 256,
      Nat.mod_mul]
    ring

theorem take_append_of_length {l1 l2 : List Nat} {w : Nat} (h : l1.length = w) :
    List.take w (l1 ++ l2) = l1 := by
  subst h; exact List.take_left _ _

theorem drop_append_of_length {l1 l2 : List Nat} {w : Nat} (h : l1.length = w) :
    List.drop w (l1 ++ l2) = l2 := by
  subst h; exact List.drop_left _ _

theorem readUint32BE_writeBE (v : Nat) (rest : List Nat) :
    readUint32BE (writeBE 4 v ++ rest) = some (v % 2 ^ 32, rest) := by
  have hl : (writeBE 4 v).length = 4 := writeBE_length 4 v
  have h1 : List.take 4 (writeBE 4 v ++ rest) = writeBE 4 v := by
    exact take_append_of_length hl
  have h2 : List.drop 4 (writeBE 4 v ++ rest) = rest := by
    exact drop_append_of_length hl
  have h3 : 4 ≤ (writeBE 4 v ++ rest).length := by simp [hl]
  rw [readUint32BE, if_pos h3, h1, h2, readBE_writeBE]
  norm_num

theorem readWords_encoded (w : Nat) (vs : List Nat) (rest : List Nat) :
    readWords w vs.length (vs.flatMap (writeBE w) ++ rest)
      = some (vs.map (fun v => v % 256 ^ w)) := by
  induction vs with
  | nil => rfl
  | cons v vs ih =>
    have hl : (writeBE w v).length = w := writeBE_length w v
    have happ : (v :: vs).flatMap (writeBE w) ++ rest
        = writeBE w v ++ (vs.flatMap (writeBE w) ++ rest) := by
      simp [List.flatMap_cons, List.append_assoc]
    have h1 : List.take w (writeBE w v ++ (vs.flatMap (writeBE w) ++ rest)) = writeBE w v := by
      exact take_append_of_length hl
    have h2 : List.drop w (writeBE w v ++ (vs.flatMap (writeBE w) ++ rest))
        = vs.flatMap (writeBE w) ++ rest := by
      exact drop_append_of_length hl
    have h3 : w ≤ (writeBE w v ++ (vs.flatMap (writeBE w) ++ rest)).length := by
      simp [hl]
    rw [happ, List.length_cons, readWords, if_pos h3, h1, h2, ih, readBE_writeBE]
    rfl

theorem modifyBack_snoc (f : Track → Option Track) (ts : List Track) (t : Track) :
    modifyBack f (ts ++ [t]) = (f t).map (fun t1 => ts ++ [t1]) := by
  induction ts with
  | nil => rfl
  | cons u us ih =>
    cases us with
    | nil =>
      simp only [List.cons_append, List.nil_append, modifyBack] at ih ⊢
      cases f t <;> rfl
    | cons v vs =>
      simp only [List.cons_append] at ih ⊢
      rw [modifyBack, ih]
      cases f t <;> rfl

/-! ### The atom walker -/

theorem childExtent_bounds {data : List Nat} {atom : Atom} {handler : Option Handler}
    {size start stop : Nat}
    (h : childExtent data atom handler size = some (start, stop)) (h8 : ¬ atom.size < 8) :
    atom.offset + 8 ≤ start ∧ start ≤ stop ∧ stop ≤ atom.offset + atom.size := by
  unfold childExtent at h
  split_ifs at h <;> simp only [Option.some.injEq, Prod.mk.injEq] at h <;> omega

theorem readDefaultFuel_zero_size (table : List ParseTable) (data : List Nat) (f : Nat)
    (atom : Atom) (p : QuickTimeParser) (h : atom.size < 8) :
    readDefaultFuel table data f atom p = Except.ok p := by
  cases f with
  | zero => rfl
  | succ f => simp [readDefaultFuel, h]

theorem readDefaultFuel_enough (table : List ParseTable) (data : List Nat) :
    ∀ (f g : Nat) (atom : Atom) (p : QuickTimeParser), atom.size ≤ f → atom.size ≤ g →
      readDefaultFuel table data f atom p = readDefaultFuel table data g atom p := by
  intro f
  induction f with
  | zero =>
    intro g atom p hf _
    rw [readDefaultFuel_zero_size table data 0 atom p (by omega),
      readDefaultFuel_zero_size table data g atom p (by omega)]
  | succ f ih =>
    intro g atom p hf hg
    cases g with
    | zero =>
      rw [readDefaultFuel_zero_size table data (f + 1) atom p (by omega),
        readDefaultFuel_zero_size table data 0 atom p (by omega)]
    | succ g =>
      by_cases h8 : atom.size < 8
      · rw [readDefaultFuel_zero_size table data (f + 1) atom p h8,
          readDefaultFuel_zero_size table data (g + 1) atom p h8]
      · simp only [readDefaultFuel, if_neg h8]
        cases hce : childExtent data atom (lookup table (readBE (slice data (atom.offset + 4) 4)))
          (readBE (slice data atom.offset 4)) with
        | none => rfl
        | some se =>
          obtain ⟨start, stop⟩ := se
          have hb := childExtent_bounds hce h8
          have hrest : ∀ q : QuickTimeParser,
              readDefaultFuel table data f
                  { type := atom.type, offset := stop, size := atom.offset + atom.size - stop } q
                = readDefaultFuel table data g
                  { type := atom.type, offset := stop, size := atom.offset + atom.size - stop } q :=
            fun q => ih g _ q (by simp only; omega) (by simp only; omega)
          simp only
          cases hl : lookup table (readBE (slice data (atom.offset + 4) 4)) with
          | none => exact hrest p
          | some h =>
            simp only
            by_cases hc : isContainer h = true
            · rw [if_pos hc, if_pos hc]
              rw [ih g _ (enterContainer h p) (by simp only; omega) (by simp only; omega)]
              cases readDefaultFuel table data g
                  { type := readBE (slice data (atom.offset + 4) 4), offset := start,
                    size := stop - start } (enterContainer h p) with
              | error e => rfl
              | ok p1 => exact hrest p1
            · rw [if_neg hc, if_neg hc]
              cases readLeafAtom h
                  { type := readBE (slice data (atom.offset + 4) 4), offset := start,
                    size := stop - start } (slice data start (stop - start)) p with
              | error e => rfl
              | ok p1 => exact hrest p1

theorem updateTrack_error {p : QuickTimeParser} {f : Track → Option Track} {e : ParseError}
    (h : updateTrack p f = Except.error e) : e = ParseError.malformedAtom := by
  unfold updateTrack at h
  cases hm : modifyBack f p._tracks with
  | none => rw [hm] at h; simp only [Except.error.injEq] at h; exact h.symm
  | some ts => rw [hm] at h; cases h

/-- Every leaf handler is `updateTrack` with some decoder, or does nothing. -/
theorem readLeafAtom_cases (h : Handler) (a : Atom) (pl : List Nat) (p : QuickTimeParser) :
    (∃ f, readLeafAtom h a pl p = updateTrack p f)
      ∨ readLeafAtom h a pl p = Except.ok p := by
  cases h
  case readSTCO => exact Or.inl ⟨_, rfl⟩
  case readSTSC => exact Or.inl ⟨_, rfl⟩
  case readSTSS => exact Or.inl ⟨_, rfl⟩
  case readSTSZ => exact Or.inl ⟨_, rfl⟩
  case readSTTS => exact Or.inl ⟨_, rfl⟩
  all_goals exact Or.inr rfl

theorem readLeafAtom_error {h : Handler} {a : Atom} {pl : List Nat} {p : QuickTimeParser}
    {e : ParseError} (he : readLeafAtom h a pl p = Except.error e) :
    e = ParseError.malformedAtom := by
  rcases readLeafAtom_cases h a pl p with ⟨f, hf⟩ | hf
  · rw [hf] at he; exact updateTrack_error he
  · rw [hf] at he; cases he

theorem readDefaultFuel_error (table : List ParseTable) (data : List Nat) :
    ∀ (f : Nat) (atom : Atom) (p : QuickTimeParser) (e : ParseError),
      readDefaultFuel table data f atom p = Except.error e → e = ParseError.malformedAtom := by
  intro f
  induction f with
  | zero => intro atom p e h; cases h
  | succ f ih =>
    intro atom p e h
    by_cases h8 : atom.size < 8
    · rw [readDefaultFuel_zero_size table data (f + 1) atom p h8] at h; cases h
    · simp only [readDefaultFuel, if_neg h8] at h
      cases hce : childExtent data atom (lookup table (readBE (slice data (atom.offset + 4) 4)))
          (readBE (slice data atom.offset 4)) with
      | none =>
        rw [hce] at h
        simp only [Except.error.injEq] at h
        exact h.symm
      | some se =>
        obtain ⟨start, stop⟩ := se
        rw [hce] at h
        simp only at h
        cases hl : lookup table (readBE (slice data (atom.offset + 4) 4)) with
        | none => rw [hl] at h; exact ih _ _ _ h
        | some hd =>
          rw [hl] at h
          simp only at h
          by_cases hc : isContainer hd = true
          · rw [if_pos hc] at h
            cases hin : readDefaultFuel table data f
                { type := readBE (slice data (atom.offset + 4) 4), offset := start,
                  size := stop - start } (enterContainer hd p) with
            | error e1 =>
              rw [hin] at h
              simp only [Except.error.injEq] at h
              rw [← h]; exact ih _ _ _ hin
            | ok p1 => rw [hin] at h; exact ih _ _ _ h
          · rw [if_neg hc] at h
            cases hin : readLeafAtom hd
                { type := readBE (slice data (atom.offset + 4) 4), offset := start,
                  size := stop - start } (slice data start (stop - start)) p with
            | error e1 =>
              rw [hin] at h
              simp only [Except.error.injEq] at h
              rw [← h]; exact readLeafAtom_error hin
            | ok p1 => rw [hin] at h; exact ih _ _ _ h

theorem atomsFuel_small (table : List ParseTable) (data : List Nat) (f : Nat) (atom : Atom)
    (h : atom.size < 8) : atomsFuel table data f atom = [] := by
  cases f with
  | zero => rfl
  | succ f => simp [atomsFuel, h]

theorem atomsFuel_enough (table : List ParseTable) (data : List Nat) :
    ∀ (f g : Nat) (atom : Atom), atom.size ≤ f → atom.size ≤ g →
      atomsFuel table data f atom = atomsFuel table data g atom := by
  intro f
  induction f with
  | zero =>
    intro g atom hf _
    rw [atomsFuel_small table data 0 atom (by omega), atomsFuel_small table data g atom (by omega)]
  | succ f ih =>
    intro g atom hf hg
    cases g with
    | zero =>
      rw [atomsFuel_small table data (f + 1) atom (by omega),
        atomsFuel_small table data 0 atom (by omega)]
    | succ g =>
      by_cases h8 : atom.size < 8
      · rw [atomsFuel_small table data (f + 1) atom h8, atomsFuel_small table data (g + 1) atom h8]
      · simp only [atomsFuel, if_neg h8]
        cases hce : childExtent data atom (lookup table (readBE (slice data (atom.offset + 4) 4)))
          (readBE (slice data atom.offset 4)) with
        | none => rfl
        | some se =>
          obtain ⟨start, stop⟩ := se
          have hb := childExtent_bounds hce h8
          simp only
          rw [ih g { type := atom.type, offset := stop, size := atom.offset + atom.size - stop }
            (by simp only; omega) (by simp only; omega)]
          cases lookup table (readBE (slice data (atom.offset + 4) 4)) with
          | none => rfl
          | some h =>
            simp only
            by_cases hc : isContainer h = true
            · rw [if_pos hc, if_pos hc, ih g _ (by simp only; omega) (by simp only; omega)]
            · rw [if_neg hc, if_neg hc]

/-! ### Atoms of a stream -/

theorem childExtent_short {data : List Nat} {atom : Atom} {handler : Option Handler}
    {size : Nat} (h2 : 2 ≤ size) (h8 : size < 8) :
    childExtent data atom handler size = none := by
  unfold childExtent
  split_ifs <;> first | rfl | omega

theorem childExtent_movieHeader {data : List Nat} {atom : Atom} {size : Nat} (h8 : size < 8) :
    childExtent data atom (some Handler.readMOOV) size = none := by
  unfold childExtent
  rw [if_pos ⟨rfl, h8⟩]

theorem readDefaultFuel_malformed (table : List ParseTable) (data : List Nat) :
    ∀ (f : Nat) (atom : Atom) (p : QuickTimeParser),
      (∃ a ∈ atomsFuel table data f atom,
        a.size < 8 ∧ (2 ≤ a.size ∨ lookup table a.type = some Handler.readMOOV)) →
      readDefaultFuel table data f atom p = Except.error ParseError.malformedAtom := by
  intro f
  induction f with
  | zero =>
    intro atom p h
    obtain ⟨a, ha, _⟩ := h
    simp [atomsFuel] at ha
  | succ f ih =>
    intro atom p hex
    obtain ⟨a, ha, ha8, hbad⟩ := hex
    by_cases h8 : atom.size < 8
    · simp [atomsFuel, h8] at ha
    · simp only [readDefaultFuel, if_neg h8]
      simp only [atomsFuel, if_neg h8] at ha
      cases hce : childExtent data atom (lookup table (readBE (slice data (atom.offset + 4) 4)))
          (readBE (slice data atom.offset 4)) with
      | none => rfl
      | some se =>
        obtain ⟨start, stop⟩ := se
        rw [hce] at ha
        simp only at ha ⊢
        rcases List.mem_cons.mp ha with ha | ha
        · subst ha
          simp only at ha8 hbad
          rcases hbad with h2 | hm
          · rw [childExtent_short h2 ha8] at hce
            cases hce
          · rw [hm, childExtent_movieHeader ha8] at hce
            cases hce
        · rcases List.mem_append.mp ha with ha | ha
          · cases hl : lookup table (readBE (slice data (atom.offset + 4) 4)) with
            | none => rw [hl] at ha; simp at ha
            | some hd =>
              rw [hl] at ha
              simp only at ha ⊢
              by_cases hc : isContainer hd = true
              · rw [if_pos hc] at ha ⊢
                rw [ih _ _ ⟨a, ha, ha8, hbad⟩]
              · rw [if_neg hc] at ha
                simp at ha
          · have hrest := fun q => ih _ q ⟨a, ha, ha8, hbad⟩
            cases hl : lookup table (readBE (slice data (atom.offset + 4) 4)) with
            | none => exact hrest p
            | some hd =>
              simp only
              cases hin : (if isContainer hd = true then
                  readDefaultFuel table data f
                    { type := readBE (slice data (atom.offset + 4) 4), offset := start,
                      size := stop - start } (enterContainer hd p)
                else readLeafAtom hd
                    { type := readBE (slice data (atom.offset + 4) 4), offset := start,
                      size := stop - start } (slice data start (stop - start)) p) with
              | ok p1 => exact hrest p1
              | error e1 =>
                simp only
                by_cases hc : isContainer hd = true
                · rw [if_pos hc] at hin
                  rw [readDefaultFuel_error table data _ _ _ _ hin]
                · rw [if_neg hc] at hin
                  rw [readLeafAtom_error hin]

/-- A listed atom carries the size and the type tag spelled by the eight bytes
at its offset. -/
theorem atomsFuel_header (table : List ParseTable) (data : List Nat) :
    ∀ (f : Nat) (atom : Atom) (a : Atom), a ∈ atomsFuel table data f atom →
      a.size = readBE (slice data a.offset 4)
        ∧ a.type = readBE (slice data (a.offset + 4) 4) := by
  intro f
  induction f with
  | zero => intro atom a ha; simp [atomsFuel] at ha
  | succ f ih =>
    intro atom a ha
    by_cases h8 : atom.size < 8
    · simp [atomsFuel, h8] at ha
    · simp only [atomsFuel, if_neg h8] at ha
      cases hce : childExtent data atom (lookup table (readBE (slice data (atom.offset + 4) 4)))
          (readBE (slice data atom.offset 4)) with
      | none =>
        rw [hce] at ha
        simp only [List.mem_singleton] at ha
        subst ha
        exact ⟨rfl, rfl⟩
      | some se =>
        obtain ⟨start, stop⟩ := se
        rw [hce] at ha
        simp only at ha
        rcases List.mem_cons.mp ha with ha | ha
        · subst ha
          exact ⟨rfl, rfl⟩
        · rcases List.mem_append.mp ha with ha | ha
          · cases hl : lookup table (readBE (slice data (atom.offset + 4) 4)) with
            | none => rw [hl] at ha; simp at ha
            | some hd =>
              rw [hl] at ha
              simp only at ha
              by_cases hc : isContainer hd = true
              · rw [if_pos hc] at ha
                exact ih _ _ ha
              · rw [if_neg hc] at ha
                simp at ha
          · exact ih _ _ ha

/-- The walk of a range that starts with a movie header atom of declared size
below 8 stops at that atom with a malformed-atom error. -/
theorem readDefaultFuel_rejects_movieHeader (table : List ParseTable) (data : List Nat)
    (f : Nat) (range : Atom) (q : QuickTimeParser) (hr : 8 ≤ range.size)
    (hm : lookup table (readBE (slice data (range.offset + 4) 4)) = some Handler.readMOOV)
    (h8 : readBE (slice data range.offset 4) < 8) :
    readDefaultFuel table data (f + 1) range q = Except.error ParseError.malformedAtom := by
  have hr8 : ¬ range.size < 8 := by omega
  simp only [readDefaultFuel, if_neg hr8]
  rw [hm, childExtent_movieHeader h8]

/-! ### The chunk-begin offset -/

theorem modifyBack_map (g g1 : Track → Option Track) (s : Track → Track)
    (hg : ∀ t, g1 (s t) = (g t).map s) :
    ∀ ts : List Track, modifyBack g1 (ts.map s) = (modifyBack g ts).map (List.map s)
  | [] => rfl
  | [t] => by
    simp only [List.map_cons, List.map_nil, modifyBack, hg]
    cases g t <;> rfl
  | t :: u :: rest => by
    have ih := modifyBack_map g g1 s hg (u :: rest)
    simp only [List.map_cons] at ih ⊢
    simp only [modifyBack, ih]
    cases modifyBack g (u :: rest) <;> rfl

theorem updateTrack_rebase (d : Nat) (p : QuickTimeParser) (g g1 : Track → Option Track)
    (hg : ∀ t, g1 (shiftTrack d t) = (g t).map (shiftTrack d)) :
    updateTrack (rebase d p) g1 = (updateTrack p g).map (rebase d) := by
  unfold updateTrack
  have h : modifyBack g1 (rebase d p)._tracks
      = (modifyBack g p._tracks).map (List.map (shiftTrack d)) :=
    modifyBack_map g g1 (shiftTrack d) hg p._tracks
  rw [h]
  cases modifyBack g p._tracks <;> rfl

theorem shift_twice (o b d : Nat) : ((o + b) % 2 ^ 32 + d) % 2 ^ 32 = (o + (b + d)) % 2 ^ 32 := by
  omega

theorem readLeafAtom_rebase (d : Nat) (h : Handler) (a : Atom) (pl : List Nat)
    (p : QuickTimeParser) :
    readLeafAtom h a pl (rebase d p) = (readLeafAtom h a pl p).map (rebase d) := by
  cases h
  case readSTCO =>
    refine updateTrack_rebase d p _ _ ?_
    intro t
    cases readUint32BE pl with
    | none => rfl
    | some nr =>
      obtain ⟨n, rest⟩ := nr
      simp only
      cases readWords (if a.type = tagCO64 then 8 else 4) n rest with
      | none => rfl
      | some ws =>
        simp only [Option.map_some', shiftTrack, rebase, List.map_map, Option.some.injEq]
        congr 1
        apply List.map_congr_left
        intro o _
        simp only [Function.comp]
        exact (shift_twice o p._beginOffset d).symm
  case readSTSC =>
    refine updateTrack_rebase d p _ _ ?_
    intro t
    cases readUint32BE pl with
    | none => rfl
    | some nr =>
      obtain ⟨n, rest⟩ := nr
      simp only
      cases readWords 4 (3 * n) rest <;> rfl
  case readSTSS =>
    refine updateTrack_rebase d p _ _ ?_
    intro t
    cases readUint32BE pl with
    | none => rfl
    | some nr =>
      obtain ⟨n, rest⟩ := nr
      simp only
      cases readWords 4 n rest <;> rfl
  case readSTSZ =>
    refine updateTrack_rebase d p _ _ ?_
    intro t
    cases readUint32BE pl with
    | none => rfl
    | some nr =>
      obtain ⟨size, rest⟩ := nr
      simp only
      cases readUint32BE rest with
      | none => rfl
      | some nr1 =>
        obtain ⟨n, rest1⟩ := nr1
        simp only
        by_cases hs : size = 0
        · rw [if_pos hs, if_pos hs]
          cases readWords 4 n rest1 <;> rfl
        · rw [if_neg hs, if_neg hs]
          rfl
  case readSTTS =>
    refine updateTrack_rebase d p _ _ ?_
    intro t
    cases readUint32BE pl with
    | none => rfl
    | some nr =>
      obtain ⟨n, rest⟩ := nr
      simp only
      cases readWords 4 (2 * n) rest <;> rfl
  all_goals rfl

theorem enterContainer_rebase (d : Nat) (h : Handler) (p : QuickTimeParser) :
    enterContainer h (rebase d p) = rebase d (enterContainer h p) := by
  cases h
  case readTRAK =>
    simp only [enterContainer, rebase, List.map_append, List.map_cons, List.map_nil]
    rfl
  all_goals rfl

theorem readDefaultFuel_rebase (table : List ParseTable) (data : List Nat) (d : Nat) :
    ∀ (f : Nat) (atom : Atom) (p : QuickTimeParser),
      readDefaultFuel table data f atom (rebase d p)
        = (readDefaultFuel table data f atom p).map (rebase d) := by
  intro f
  induction f with
  | zero => intro atom p; rfl
  | succ f ih =>
    intro atom p
    by_cases h8 : atom.size < 8
    · rw [readDefaultFuel_zero_size table data (f + 1) atom _ h8,
        readDefaultFuel_zero_size table data (f + 1) atom _ h8]
      rfl
    · simp only [readDefaultFuel, if_neg h8]
      cases hce : childExtent data atom (lookup table (readBE (slice data (atom.offset + 4) 4)))
          (readBE (slice data atom.offset 4)) with
      | none => rfl
      | some se =>
        obtain ⟨start, stop⟩ := se
        simp only
        cases hl : lookup table (readBE (slice data (atom.offset + 4) 4)) with
        | none => exact ih _ _
        | some hd =>
          simp only
          by_cases hc : isContainer hd = true
          · rw [if_pos hc, if_pos hc, enterContainer_rebase, ih]
            cases readDefaultFuel table data f
                { type := readBE (slice data (atom.offset + 4) 4), offset := start,
                  size := stop - start } (enterContainer hd p) with
            | error e => rfl
            | ok p1 => exact ih _ _
          · rw [if_neg hc, if_neg hc, readLeafAtom_rebase]
            cases readLeafAtom hd
                { type := readBE (slice data (atom.offset + 4) 4), offset := start,
                  size := stop - start } (slice data start (stop - start)) p with
            | error e => rfl
            | ok p1 => exact ih _ _

theorem parseStream_rebase (p : QuickTimeParser) (stream : SeekableReadStream)
    (flag : DisposeAfterUse.Flag) (d : Nat) (hp : p._tracks = []) :
    (parseStream (setChunkBeginOffset p d) stream flag).1
        = (parseStream (setChunkBeginOffset p 0) stream flag).1
      ∧ (parseStream (setChunkBeginOffset p d) stream flag).2._tracks
        = (parseStream (setChunkBeginOffset p 0) stream flag).2._tracks.map (shiftTrack d) := by
  have h1 : ({ setChunkBeginOffset p d with
        _fd := some stream, _foundMOOV := false, _disposeFileHandle := flag } : QuickTimeParser)
      = rebase d { setChunkBeginOffset p 0 with
        _fd := some stream, _foundMOOV := false, _disposeFileHandle := flag } := by
    simp [rebase, setChunkBeginOffset, hp]
  unfold parseStream readDefault
  simp only
  rw [h1, readDefaultFuel_rebase]
  cases readDefaultFuel initParseTable stream.data stream.data.length
      { type := 0, offset := 0, size := stream.data.length }
      { setChunkBeginOffset p 0 with
        _fd := some stream, _foundMOOV := false, _disposeFileHandle := flag } with
  | error e => exact ⟨rfl, rfl⟩
  | ok q =>
    simp only [Except.map]
    by_cases hq : q._foundMOOV = true
    · have hq1 : (rebase d q)._foundMOOV = true := hq
      rw [if_pos hq, if_pos hq1]
      exact ⟨rfl, rfl⟩
    · have hq1 : ¬ (rebase d q)._foundMOOV = true := hq
      rw [if_neg hq, if_neg hq1]
      exact ⟨rfl, rfl⟩

theorem findChunk_shiftTrack (d : Nat) (t : Track) :
    ∀ k chunk first n : Nat,
      findChunk (shiftTrack d t) k chunk first n = findChunk t k chunk first n := by
  intro k
  induction k with
  | zero => intro chunk first n; rfl
  | succ k ih =>
    intro chunk first n
    simp only [findChunk]
    rw [ih]
    rfl

theorem sampleOffset_shiftTrack (d : Nat) (t : Track) (n base o : Nat)
    (hbase : sampleChunkBase t n = some base) (ho : sampleOffset t n = some o) :
    sampleOffset (shiftTrack d t) n = some ((base + d) % 2 ^ 32 + (o - base)) := by
  unfold sampleChunkBase at hbase
  unfold sampleOffset at ho ⊢
  rw [findChunk_shiftTrack]
  have hcc : (shiftTrack d t).chunkCount = t.chunkCount := rfl
  rw [hcc]
  cases hf : findChunk t t.chunkCount 0 0 n with
  | none => rw [hf] at hbase; cases hbase
  | some cf =>
    obtain ⟨chunk, first⟩ := cf
    rw [hf] at hbase ho
    simp only at hbase ho ⊢
    have hco : (shiftTrack d t).chunkOffsets[chunk]? = some ((base + d) % 2 ^ 32) := by
      simp only [shiftTrack, List.getElem?_map, hbase, Option.map_some']
    rw [hbase] at ho
    simp only [Option.some.injEq] at ho
    rw [hco]
    simp only [Option.some.injEq]
    have hi : intraChunkOffset (shiftTrack d t) first n = intraChunkOffset t first n := rfl
    rw [hi, ← ho]
    omega

/-! ### Claims -/

/-- C1, counterexample: the chunk of `movieWithChunkAt 4294967295` is declared
at offset `2 ^ 32 - 1`; parsed with chunk-begin offset 0 its first sample
resolves to `2 ^ 32 - 1`, parsed with chunk-begin offset 1 it resolves to 0,
not to `2 ^ 32`. -/
theorem sampleOffset_wraps_at_uint32 :
    (movieWithChunkAt 4294967295).data
      = [0, 0, 0, 80, 109, 111, 111, 118, 0, 0, 0, 72, 116, 114, 97, 107,
         0, 0, 0, 16, 115, 116, 99, 111, 0, 0, 0, 1, 255, 255, 255, 255,
         0, 0, 0, 24, 115, 116, 115, 99, 0, 0, 0, 1, 0, 0, 0, 1, 0, 0, 0, 2, 0, 0, 0, 1,
         0, 0, 0, 24, 115, 116, 115, 122, 0, 0, 0, 0, 0, 0, 0, 2, 0, 0, 0, 10, 0, 0, 0, 20]
    ∧ (parseStream (setChunkBeginOffset QuickTimeParser.new 0) (movieWithChunkAt 4294967295)
        DisposeAfterUse.Flag.YES).2._tracks.map (fun t => sampleOffset t 0)
      = [some 4294967295]
    ∧ (parseStream (setChunkBeginOffset QuickTimeParser.new 1) (movieWithChunkAt 4294967295)
        DisposeAfterUse.Flag.YES).2._tracks.map (fun t => sampleOffset t 0)
      = [some 0]
    ∧ (0 : Nat) ≠ 4294967295 + 1 := by
  decide

/-- C1, amended (spec-modelled `parseStream`, `readSTCO` and sample locator):
when one stream is parsed by a parser without tracks once after
`setChunkBeginOffset(0)` and once after `setChunkBeginOffset(d)`, both parses
return the same value and give track for track the same tables; a sample that
resolves to `o0` in the first parse resolves to `o0 + d` in the second,
provided the base offset of its chunk plus `d` is below `2 ^ 32`. -/
theorem sampleOffset_shifts_with_chunkBeginOffset (p : QuickTimeParser)
    (stream : SeekableReadStream) (flag : DisposeAfterUse.Flag) (d i n base o0 : Nat)
    (t0 : Track) (hp : p._tracks = [])
    (ht : (parseStream (setChunkBeginOffset p 0) stream flag).2._tracks[i]? = some t0)
    (hbase : sampleChunkBase t0 n = some base)
    (ho : sampleOffset t0 n = some o0)
    (hfit : base + d < 2 ^ 32) :
    (parseStream (setChunkBeginOffset p d) stream flag).1
        = (parseStream (setChunkBeginOffset p 0) stream flag).1
      ∧ ∃ td : Track,
          (parseStream (setChunkBeginOffset p d) stream flag).2._tracks[i]? = some td
          ∧ sampleOffset td n = some (o0 + d) := by
  obtain ⟨h1, h2⟩ := parseStream_rebase p stream flag d hp
  refine ⟨h1, shiftTrack d t0, ?_, ?_⟩
  · rw [h2, List.getElem?_map, ht]; rfl
  · rw [sampleOffset_shiftTrack d t0 n base o0 hbase ho, Nat.mod_eq_of_lt hfit]
    have hle : base ≤ o0 := by
      unfold sampleChunkBase at hbase
      unfold sampleOffset at ho
      cases hf : findChunk t0 t0.chunkCount 0 0 n with
      | none => rw [hf] at hbase; cases hbase
      | some cf =>
        obtain ⟨chunk, first⟩ := cf
        rw [hf] at hbase ho
        simp only at hbase ho
        rw [hbase] at ho
        simp only [Option.some.injEq] at ho
        omega
    congr 1
    omega

/-- C1, witness: the second sample of `movieWithChunkAt 1000` resolves to 1010
with chunk-begin offset 0 and to 1034 with chunk-begin offset 24. -/
theorem sampleOffset_shifts_with_chunkBeginOffset_witness :
    sampleOffset ({ Track.new with
        chunkCount := 1, chunkOffsets := [1000], sampleToChunkCount := 1,
        sampleToChunk := [⟨1, 2, 1⟩], sampleCount := 2, sampleSizes := [10, 20] }) 1
      = some (1000 + 10)
    ∧ (parseStream (setChunkBeginOffset QuickTimeParser.new 24) (movieWithChunkAt 1000)
          DisposeAfterUse.Flag.YES).1
        = (parseStream (setChunkBeginOffset QuickTimeParser.new 0) (movieWithChunkAt 1000)
          DisposeAfterUse.Flag.YES).1
    ∧ ∃ td : Track,
        (parseStream (setChunkBeginOffset QuickTimeParser.new 24) (movieWithChunkAt 1000)
          DisposeAfterUse.Flag.YES).2._tracks[0]? = some td
        ∧ sampleOffset td 1 = some (1010 + 24) :=
  ⟨by decide,
    sampleOffset_shifts_with_chunkBeginOffset QuickTimeParser.new (movieWithChunkAt 1000)
      DisposeAfterUse.Flag.YES 24 0 1 1000 1010
      ({ Track.new with
        chunkCount := 1, chunkOffsets := [1000], sampleToChunkCount := 1,
        sampleToChunk := [⟨1, 2, 1⟩], sampleCount := 2, sampleSizes := [10, 20] })
      rfl (by decide) (by decide) (by decide) (by decide)⟩

/-- C3 (spec-modelled `readDefault` and `parseStream`): for a stream with a
movie header atom whose declared size is smaller than 8 bytes, the walk of the
stream ends with a malformed-atom error from every parser state; the atom
itself is rejected as malformed by every walk that reads its header; and
`parseStream` returns false. -/
theorem parseStream_rejects_short_moov (p : QuickTimeParser) (stream : SeekableReadStream)
    (flag : DisposeAfterUse.Flag)
    (h : ∃ a ∈ atoms stream, a.type = tagMOOV ∧ a.size < 8) :
    (∀ q : QuickTimeParser,
        readDefault initParseTable stream.data
          { type := 0, offset := 0, size := stream.data.length } q
          = Except.error ParseError.malformedAtom)
      ∧ (∀ a ∈ atoms stream, a.type = tagMOOV → a.size < 8 →
          ∀ (fuel : Nat) (range : Atom) (q : QuickTimeParser),
            range.offset = a.offset → 8 ≤ range.size →
            readDefaultFuel initParseTable stream.data (fuel + 1) range q
              = Except.error ParseError.malformedAtom)
      ∧ (parseStream p stream flag).1 = false := by
  have hmoov : lookup initParseTable tagMOOV = some Handler.readMOOV := by decide
  obtain ⟨a, ha, hat, ha8⟩ := h
  have hbad : ∀ q : QuickTimeParser,
      readDefault initParseTable stream.data
        { type := 0, offset := 0, size := stream.data.length } q
        = Except.error ParseError.malformedAtom :=
    fun q => readDefaultFuel_malformed _ _ _ _ q
      ⟨a, ha, ha8, Or.inr (by rw [hat]; exact hmoov)⟩
  refine ⟨hbad, ?_, ?_⟩
  · intro b hb hbt hb8 fuel range q hoff hsize
    obtain ⟨hs, ht⟩ := atomsFuel_header _ _ _ _ b hb
    refine readDefaultFuel_rejects_movieHeader _ _ fuel range q hsize ?_ ?_
    · rw [hoff, ← ht, hbt]; exact hmoov
    · rw [hoff, ← hs]; exact hb8
  · unfold parseStream
    simp only [hbad]

/-- C3, witness: the movie header atom of `movieOfSizeZero` declares size 0;
the walk is rejected and `parseStream` returns false. -/
theorem parseStream_rejects_short_moov_witness :
    movieOfSizeZero.data = [0, 0, 0, 0, 109, 111, 111, 118]
    ∧ (∃ a ∈ atoms movieOfSizeZero, a.type = tagMOOV ∧ a.size < 8)
    ∧ (∀ q : QuickTimeParser,
        readDefault initParseTable movieOfSizeZero.data
          { type := 0, offset := 0, size := movieOfSizeZero.data.length } q
          = Except.error ParseError.malformedAtom)
    ∧ (parseStream QuickTimeParser.new movieOfSizeZero DisposeAfterUse.Flag.YES).1 = false :=
  ⟨by decide, by decide,
    (parseStream_rejects_short_moov QuickTimeParser.new movieOfSizeZero DisposeAfterUse.Flag.YES
      (by decide)).1,
    (parseStream_rejects_short_moov QuickTimeParser.new movieOfSizeZero DisposeAfterUse.Flag.YES
      (by decide)).2.2⟩

/-- C4, counterexample: a 64-bit chunk-offset atom that declares one offset,
`2 ^ 32`, with chunk-begin offset 0: the handler succeeds and entry 0 of the
table is 0, not `2 ^ 32`. -/
theorem readSTCO_loses_high_bits :
    writeBE 4 1 ++ writeBE 8 4294967296 = [0, 0, 0, 1, 0, 0, 0, 1, 0, 0, 0, 0]
    ∧ ∃ q : QuickTimeParser,
      readSTCO { type := tagCO64, offset := 8, size := 12 }
          (writeBE 4 1 ++ writeBE 8 4294967296) parserWithOneTrack = Except.ok q
      ∧ q._tracks.map (fun t => (t.chunkCount, t.chunkOffsets)) = [(1, [0])]
      ∧ (0 : Nat) ≠ 4294967296 + parserWithOneTrack._beginOffset :=
  ⟨by decide, _, rfl, by decide, by decide⟩

/-- C4, amended (spec-modelled `readSTCO`): for a chunk-offset atom, 32-bit or
64-bit, whose payload declares a count `n` followed by `n` offsets, the
handler succeeds and changes only the track under construction: its
`chunkCount` is `n`, its chunk offset table has `n` entries, and entry `i` is
the `i`-th declared offset plus the chunk-begin offset modulo `2 ^ 32`, which
is that sum itself when the sum is below `2 ^ 32`. -/
theorem readSTCO_fills_chunk_table (atom : Atom) (p : QuickTimeParser) (ts : List Track)
    (t : Track) (n : Nat) (offs extra : List Nat)
    (htracks : p._tracks = ts ++ [t])
    (hn : n < 2 ^ 32) (hlen : offs.length = n)
    (hoffs : ∀ o ∈ offs, o < 256 ^ (if atom.type = tagCO64 then 8 else 4)) :
    readSTCO atom
        (writeBE 4 n ++ offs.flatMap (writeBE (if atom.type = tagCO64 then 8 else 4)) ++ extra) p
      = Except.ok { p with
          _tracks := ts ++ [{ t with
            chunkCount := n
            chunkOffsets := offs.map (fun o => (o + p._beginOffset) % 2 ^ 32) }] }
    ∧ (offs.map (fun o => (o + p._beginOffset) % 2 ^ 32)).length = n
    ∧ (∀ i o : Nat, offs[i]? = some o →
        (offs.map (fun o => (o + p._beginOffset) % 2 ^ 32))[i]?
          = some ((o + p._beginOffset) % 2 ^ 32))
    ∧ (∀ i o : Nat, offs[i]? = some o → o + p._beginOffset < 2 ^ 32 →
        (offs.map (fun o => (o + p._beginOffset) % 2 ^ 32))[i]? = some (o + p._beginOffset)) := by
  refine ⟨?_, by simp [hlen], ?_, ?_⟩
  · have hmap : offs.map (fun v => v % 256 ^ (if atom.type = tagCO64 then 8 else 4)) = offs := by
      conv_rhs => rw [← List.map_id offs]
      apply List.map_congr_left
      intro o ho
      exact Nat.mod_eq_of_lt (hoffs o ho)
    unfold readSTCO updateTrack
    rw [htracks, modifyBack_snoc, List.append_assoc, readUint32BE_writeBE,
      Nat.mod_eq_of_lt hn]
    simp only
    rw [← hlen, readWords_encoded, hmap]
    rfl
  · intro i o hi
    rw [List.getElem?_map, hi]; rfl
  · intro i o hi hfit
    rw [List.getElem?_map, hi, Option.map_some', Nat.mod_eq_of_lt hfit]

/-- C4, witness: a 64-bit chunk-offset atom that declares the offsets 7 and
`2 ^ 32 + 5`, read with chunk-begin offset 0, fills the table with 7 and 5. -/
theorem readSTCO_fills_chunk_table_witness :
    (parserWithOneTrack._tracks = [] ++ [Track.new]
      ∧ 2 < 2 ^ 32
      ∧ [7, 4294967301].length = 2
      ∧ ∀ o ∈ [7, 4294967301], o < 256 ^ 8)
    ∧ readSTCO { type := tagCO64, offset := 8, size := 20 }
        (writeBE 4 2 ++ [7, 4294967301].flatMap (writeBE 8) ++ []) parserWithOneTrack
      = Except.ok { parserWithOneTrack with
          _tracks := [] ++ [{ Track.new with chunkCount := 2, chunkOffsets := [7, 5] }] } :=
  ⟨⟨rfl, by decide, rfl, by decide⟩,
    (readSTCO_fills_chunk_table { type := tagCO64, offset := 8, size := 20 } parserWithOneTrack
      [] Track.new 2 [7, 4294967301] [] rfl (by decide) rfl (by decide)).1⟩

/-- C5 (spec-modelled `close`): calling `close` twice leaves the parser in the
same state as calling it once; the second call deletes no stream; after
`close`, `isOpen` returns false and the track list is empty. -/
theorem close_idempotent (p : QuickTimeParser) :
    close (close p) = close p
      ∧ closeDeletes (close p) = none
      ∧ (isOpen (close p)).1 = false
      ∧ (close p)._tracks = [] := by
  refine ⟨rfl, ?_, rfl, rfl⟩
  simp [closeDeletes, close]

/-- C7: `isOpen` returns true exactly when the `_fd` field holds a stream
handle; the field holds at most one handle; the call leaves the parser
unchanged. -/
theorem isOpen_iff_holds_stream (p : QuickTimeParser) :
    ((isOpen p).1 = true ↔ p._fd ≠ none)
      ∧ (∀ s t : SeekableReadStream, p._fd = some s → p._fd = some t → s = t)
      ∧ (isOpen p).2 = p := by
  refine ⟨?_, ?_, rfl⟩
  · cases h : p._fd <;> simp [isOpen, h]
  · intro s t hs ht
    rw [hs] at ht
    exact Option.some.inj ht

/-- C8: `getTimeScale` returns the movie-level `_timeScale` field, whatever
the tracks and their own media time scales are, and leaves the parser
unchanged. -/
theorem getTimeScale_is_movie_scale (p : QuickTimeParser) :
    (getTimeScale p).1 = p._timeScale
      ∧ (getTimeScale p).2 = p
      ∧ ∀ ts : List Track, (getTimeScale { p with _tracks := ts }).1 = (getTimeScale p).1 := by
  exact ⟨rfl, rfl, fun _ => rfl⟩

/-- C9: `setChunkBeginOffset` changes only the stored chunk-begin offset: the
results of `getTimeScale` and `isOpen` and the track list are the same before
and after, every other field is kept, and setting `a` then `b` gives the same
state as setting `b` alone. -/
theorem setChunkBeginOffset_frame (p : QuickTimeParser) (a b : Nat) :
    (getTimeScale (setChunkBeginOffset p a)).1 = (getTimeScale p).1
      ∧ (isOpen (setChunkBeginOffset p a)).1 = (isOpen p).1
      ∧ (setChunkBeginOffset p a)._tracks = p._tracks
      ∧ (setChunkBeginOffset p a)._beginOffset = a
      ∧ { setChunkBeginOffset p a with _beginOffset := p._beginOffset } = p
      ∧ setChunkBeginOffset (setChunkBeginOffset p a) b = setChunkBeginOffset p b := by
  exact ⟨rfl, rfl, rfl, rfl, rfl, rfl⟩

end Common

namespace RiscOS

/-- C10: `main` returns exactly the value `scummvm_main(argc, argv)` returns.
It runs, in this order, the construction of the backend, `init()`, the plugin
provider when `DYNAMIC_MODULES` is set, `scummvm_main(argc, argv)` and
`destroy()`: `scummvm_main` runs on the state `init()` leaves, the final state
is the one `destroy()` leaves when run on the state `scummvm_main` leaves, and
among the calls `main` makes `init()` and `destroy()` each occur exactly
once. -/
theorem main_returns_scummvm_main {σ : Type} (c : Collaborators σ) (dyn : Bool) (argc : Int)
    (argv : List String) (w : World σ) :
    (main c dyn argc argv w).1 =
        (c.scummvm_main argc argv
          (if dyn then c.addPluginProvider (c.init (c.newOSystem_RISCOS w.state))
           else c.init (c.newOSystem_RISCOS w.state))).1
      ∧ (main c dyn argc argv w).2.state =
          c.destroy (c.scummvm_main argc argv
            (if dyn then c.addPluginProvider (c.init (c.newOSystem_RISCOS w.state))
             else c.init (c.newOSystem_RISCOS w.state))).2
      ∧ (main c dyn argc argv w).2.calls =
          w.calls ++ (Call.newOSystem_RISCOS :: Call.init ::
            ((if dyn then [Call.addPluginProvider] else []) ++
              [Call.scummvm_main argc argv, Call.destroy]))
      ∧ ((main c dyn argc argv w).2.calls.drop w.calls.length).count Call.init = 1
      ∧ ((main c dyn argc argv w).2.calls.drop w.calls.length).count Call.destroy = 1 := by
  have hcalls : (main c dyn argc argv w).2.calls =
      w.calls ++ (Call.newOSystem_RISCOS :: Call.init ::
        ((if dyn then [Call.addPluginProvider] else []) ++
          [Call.scummvm_main argc argv, Call.destroy])) := by
    cases dyn <;> simp [main]
  refine ⟨?_, ?_, hcalls, ?_, ?_⟩
  · cases dyn <;> rfl
  · cases dyn <;> rfl
  · rw [hcalls, List.drop_left]
    cases dyn <;> simp [List.count_cons]
  · rw [hcalls, List.drop_left]
    cases dyn <;> simp [List.count_cons]

end RiscOS
